import Mathlib

/-!
Shallow embedding of src/src/HttpPublishQueueAsync.cpp.

The retained buffer is a byte region: an 8-byte header (RetainedBufHeader:
uint32 magic, uint16 size, uint16 numEvents) followed by the record area.
We model the header by its three fields and the record area as a list of
bytes; `nextFree` is kept as an offset into the record area (the nextFree
pointer minus retainedBuffer minus sizeof(RetainedBufHeader)).

The class members `eventName`, `data`, `isSending`, `lastPublish` and the
`stateHandler` function pointer are declared in the class header file; their
uses in the .cpp are modelled as state fields.  Machine integers are Nat
with explicit wrap where overflow can occur; pointer differences that are
non-negative in every state the theorems quantify over are Nat subtraction.
The one place where the C pointer arithmetic can go below the record area,
the cursor update `nextFree -= len` of discardOldEvent, is additionally
modelled exactly by the Int-valued discardCursor, since the Nat state field
clamps that underflow at area offset 0.
-/

namespace HttpPublishQueueAsync

/-- sizeof(RetainedBufHeader): uint32 magic + uint16 size + uint16 numEvents. -/
def HDR_SIZE : Nat := 8

/-- sizeof(EventData): a single uint16 port. -/
def EVT_SIZE : Nat := 2

/-- RETAINED_BUF_HEADER_MAGIC = 0xd19cab61. -/
def MAGIC : Nat := 0xd19cab61

/-- 2^16, the wrap of the uint16 numEvents counter. -/
def U16 : Nat := 65536

/-- 2^32, the wrap of uint32 millis() arithmetic. -/
def U32 : Nat := 4294967296

/-- Round n up to the next multiple of 4: the padding step
`if ((size % 4) != 0) size += 4 - (size % 4)` of publish and skipEvent. -/
def align4 (n : Nat) : Nat := if n % 4 ≠ 0 then n + (4 - n % 4) else n

/-- Byte read at index i; an out-of-range read is modelled as 0. -/
def byteAt (buf : List Nat) (i : Nat) : Nat := buf.getD i 0

/-- strlen starting at area offset off: number of bytes before the first 0. -/
def strlenFrom (buf : List Nat) (off : Nat) : Nat :=
  ((buf.drop off).takeWhile (fun b => b != 0)).length

/-- skipEvent: advance over sizeof(EventData), two null-terminated strings,
then align.  The source aligns the absolute offset `start - retainedBuffer`,
which is the area offset plus HDR_SIZE. -/
def skipEvent (buf : List Nat) (off : Nat) : Nat :=
  let o1 := off + EVT_SIZE
  let o2 := o1 + strlenFrom buf o1 + 1
  let o3 := o2 + strlenFrom buf o2 + 1
  align4 (o3 + HDR_SIZE) - HDR_SIZE

/-- Write the bytes bs into buf at offset off (memcpy semantics). -/
def writeBytes (buf : List Nat) (off : Nat) (bs : List Nat) : List Nat :=
  buf.take off ++ bs ++ buf.drop (off + bs.length)

/-- The drain state machine's states (values of the stateHandler pointer). -/
inductive HState where
  | start
  | checkQueue
  | waitRetry
deriving DecidableEq

/-- The mutable state of one HttpPublishQueueAsync object together with the
retained buffer it owns. -/
structure QState where
  retainedBufferSize : Nat
  buf : List Nat
  magic : Nat
  sizeField : Nat
  numEvents : Nat
  nextFree : Nat
  isSending : Bool
  lastPublish : Nat
  eventName : List Nat
  data : Option (List Nat)
  handler : HState
deriving DecidableEq

/-- Area offset of the end pointer `&retainedBuffer[retainedBufferSize]`. -/
def QState.areaEnd (s : QState) : Nat := s.retainedBufferSize - HDR_SIZE

/-- The common tail of discardOldEvent: remove the event at area offset
start by memmove-ing the following bytes down.  The C `nextFree -= len`
(line 184) is pointer arithmetic that can move the cursor below the record
area when the removed event's walk length exceeds the cursor — reachable,
because publish reserves the parameter-computed size but writes the member
strings; the Nat field clamps that underflow at 0 (exact on states where
the cursor sits at the walk's end), and discardCursor below computes the
exact signed value of the same update. -/
def discardAt (s : QState) (start : Nat) : QState :=
  let next := skipEvent s.buf start
  let len := next - start
  let after := s.areaEnd - next
  let buf' := if 0 < after then writeBytes s.buf start ((s.buf.drop next).take after)
              else s.buf
  { s with buf := buf', nextFree := s.nextFree - len, numEvents := s.numEvents - 1 }

/-- discardOldEvent: drop the oldest event, or the second oldest when
secondEvent is true; fails when the requested event does not exist. -/
def discardOldEvent (s : QState) (secondEvent : Bool) : Bool × QState :=
  if secondEvent then
    if s.numEvents < 2 then (false, s)
    else (true, discardAt s (skipEvent s.buf 0))
  else
    if s.numEvents < 1 then (false, s)
    else (true, discardAt s 0)

/-- The exact value the C statements `len = next - start; nextFree -= len`
of discardOldEvent give the cursor, as a signed area offset (the absolute
cursor is retainedBuffer + HDR_SIZE + this): unlike the clamped Nat field
of discardAt, it goes negative when the removed event's walk length
exceeds the cursor. -/
def discardCursor (s : QState) (start : Nat) : Int :=
  (s.nextFree : Int) - ((skipEvent s.buf start : Int) - (start : Int))

/-- publish(hostName, port, path, body).  The source first replaces a NULL
`data` member by "", sizes the record from the four parameters (three
strings plus terminators plus EventData, padded to 4), rejects an oversized
record, and then runs the body of its while loop, which either writes the
record (port, then the `eventName` member, then the `data` member), or
returns false when only one event is stored, or discards one old event
(the second oldest while sending) and returns false. -/
def publish (s : QState) (hostName : List Nat) (port : Nat) (path body : List Nat) :
    Bool × QState :=
  let s1 := { s with data := some (s.data.getD []) }
  let d := s1.data.getD []
  let size := align4 (EVT_SIZE + hostName.length + path.length + body.length + 3)
  if size > s1.retainedBufferSize - HDR_SIZE then (false, s1)
  else if s1.areaEnd - s1.nextFree ≥ size then
    let buf1 := writeBytes s1.buf s1.nextFree [port % 256, port / 256 % 256]
    let buf2 := writeBytes buf1 (s1.nextFree + EVT_SIZE) (s1.eventName ++ [0])
    let buf3 := writeBytes buf2 (s1.nextFree + EVT_SIZE + s1.eventName.length + 1) (d ++ [0])
    (true, { s1 with buf := buf3, nextFree := s1.nextFree + size,
                     numEvents := (s1.numEvents + 1) % U16 })
  else if s1.numEvents == 1 then (false, s1)
  else (false, (discardOldEvent s1 s1.isSending).2)

/-- clearEvents: when not sending, set hdr->numEvents to 0 and succeed;
note the source does not touch nextFree. -/
def clearEvents (s : QState) : Bool × QState :=
  if !s.isSending then (true, { s with numEvents := 0 }) else (false, s)

/-- The constructor's validation walk: advance over n events, failing as
soon as nextFree moves strictly past the end of the region. -/
def walkEvents (buf : List Nat) (areaEnd : Nat) : Nat → Nat → Option Nat
  | 0, off => some off
  | n + 1, off =>
    let off' := skipEvent buf off
    if off' > areaEnd then none else walkEvents buf areaEnd n off'

/-- The constructor: validate the header (magic and stored size); when valid,
recompute nextFree by walking hdr->numEvents events, resetting on overflow;
when invalid or overflowing, reset the header to an empty valid state.
The record-area bytes are never written by the constructor. -/
def construct (m sz ne : Nat) (buf : List Nat) (bufSize : Nat)
    (en : List Nat) (dm : Option (List Nat)) : QState :=
  let areaEnd := bufSize - HDR_SIZE
  let walked := if m = MAGIC ∧ sz = bufSize then walkEvents buf areaEnd ne 0 else none
  match walked with
  | some off =>
    { retainedBufferSize := bufSize, buf := buf, magic := m, sizeField := sz,
      numEvents := ne, nextFree := off, isSending := false, lastPublish := 0,
      eventName := en, data := dm, handler := HState.start }
  | none =>
    { retainedBufferSize := bufSize, buf := buf, magic := MAGIC, sizeField := bufSize,
      numEvents := 0, nextFree := 0, isSending := false, lastPublish := 0,
      eventName := en, data := dm, handler := HState.start }

/-- uint32 subtraction millis() - lastPublish. -/
def elapsed (now last : Nat) : Nat := (now % U32 + U32 - last % U32) % U32

/-- checkQueueState: when an event is queued, the connectivity signal is
ready and at least 1010 ms have elapsed, set isSending, attempt the
transport (whose response status is the status argument), discard the
oldest event on a 2xx status or move to waitRetryState otherwise, and in
either case clear isSending and set lastPublish to the current millis(). -/
def checkQueueState (s : QState) (wifiReady : Bool) (now : Nat) (status : Int) : QState :=
  if s.numEvents > 0 ∧ wifiReady = true ∧ elapsed now s.lastPublish ≥ 1010 then
    let s1 := { s with isSending := true }
    let s2 := if 200 ≤ status ∧ status < 300 then (discardOldEvent s1 false).2
              else { s1 with handler := HState.waitRetry }
    { s2 with isSending := false, lastPublish := now % U32 }
  else s

/-- waitRetryState: return to checkQueueState once failureRetryMs elapsed. -/
def waitRetryState (s : QState) (now failureRetryMs : Nat) : QState :=
  if elapsed now s.lastPublish ≥ failureRetryMs then { s with handler := HState.checkQueue }
  else s

/-- One stored record, as the walk decodes it: the uint16 port of EventData
and the two null-terminated strings behind it. -/
structure Rec where
  port : Nat
  name : List Nat
  payload : List Nat
deriving DecidableEq

/-- Unpadded encoded size of a record. -/
def rawLen (r : Rec) : Nat := EVT_SIZE + r.name.length + 1 + r.payload.length + 1

/-- Padded encoded size of a record: the distance skipEvent moves over it
when it starts at a 4-aligned area offset. -/
def recStep (r : Rec) : Nat := align4 (rawLen r)

/-- recordStoredAt buf off r: the record area holds, at offset off, the
little-endian port bytes, then name with its terminator, then payload with
its terminator, all inside the area; the strings are zero-free so that the
strlen walk reads them back. -/
def recordStoredAt (buf : List Nat) (off : Nat) (r : Rec) : Bool :=
  decide (off + rawLen r ≤ buf.length) &&
  r.name.all (fun b => b != 0) && r.payload.all (fun b => b != 0) &&
  decide (byteAt buf (off + 0) = r.port % 256) &&
  decide (byteAt buf (off + 1) = r.port / 256 % 256) &&
  decide (∀ i < r.name.length, byteAt buf (off + (EVT_SIZE + i)) = r.name.getD i 0) &&
  decide (byteAt buf (off + (EVT_SIZE + r.name.length)) = 0) &&
  decide (∀ i < r.payload.length,
    byteAt buf (off + (EVT_SIZE + r.name.length + 1 + i)) = r.payload.getD i 0) &&
  decide (byteAt buf (off + (EVT_SIZE + r.name.length + 1 + r.payload.length)) = 0)

/-- storedFrom buf off rs: the records rs are stored back-to-back starting
at area offset off, each one followed by the next at recStep distance. -/
def storedFrom (buf : List Nat) (off : Nat) : List Rec → Bool
  | [] => true
  | r :: rs => recordStoredAt buf off r && storedFrom buf (off + recStep r) rs

/-- Total padded size of a record list. -/
def walkLen : List Rec → Nat
  | [] => 0
  | r :: rs => recStep r + walkLen rs

/-- validState s rs: the buffer of s holds exactly the records rs:
the area list has the region's length, the records are stored from offset 0,
hdr->numEvents counts them, and nextFree sits right behind the last one,
inside the region. -/
def validState (s : QState) (rs : List Rec) : Prop :=
  HDR_SIZE ≤ s.retainedBufferSize ∧
  s.buf.length = s.retainedBufferSize - HDR_SIZE ∧
  storedFrom s.buf 0 rs = true ∧
  s.numEvents = rs.length ∧
  s.nextFree = walkLen rs ∧
  walkLen rs ≤ s.retainedBufferSize - HDR_SIZE

/-- Decode the record at an area offset the way checkQueueState reads the
oldest one: port from EventData, eventName behind it, eventData behind the
terminator. -/
def readRec (buf : List Nat) (off : Nat) : Rec :=
  { port := byteAt buf off + 256 * byteAt buf (off + 1),
    name := (buf.drop (off + EVT_SIZE)).takeWhile (fun b => b != 0),
    payload := (buf.drop (off + EVT_SIZE + strlenFrom buf (off + EVT_SIZE) + 1)).takeWhile
      (fun b => b != 0) }

/-! Arithmetic facts about the 4-byte padding. -/

theorem align4_ge (n : Nat) : n ≤ align4 n := by
  unfold align4; split <;> omega

theorem align4_lt (n : Nat) : align4 n < n + 4 := by
  unfold align4; split <;> omega

theorem align4_mod (n : Nat) : align4 n % 4 = 0 := by
  unfold align4; split <;> omega

theorem align4_eq_of_mod (n : Nat) (h : n % 4 = 0) : align4 n = n := by
  unfold align4; split <;> omega

theorem align4_add_left (a b : Nat) (h : a % 4 = 0) : align4 (a + b) = a + align4 b := by
  unfold align4; split <;> split <;> omega

theorem rawLen_ge (r : Rec) : 4 ≤ rawLen r := by
  unfold rawLen EVT_SIZE; omega

theorem rawLen_le_recStep (r : Rec) : rawLen r ≤ recStep r := align4_ge _

theorem recStep_ge (r : Rec) : 4 ≤ recStep r :=
  Nat.le_trans (rawLen_ge r) (rawLen_le_recStep r)

theorem recStep_mod (r : Rec) : recStep r % 4 = 0 := align4_mod _

theorem walkLen_append (rs ts : List Rec) :
    walkLen (rs ++ ts) = walkLen rs + walkLen ts := by
  induction rs with
  | nil => simp [walkLen]
  | cons r rs ih => simp [walkLen, ih]; omega

theorem walkLen_eq_zero (rs : List Rec) (h : walkLen rs = 0) : rs = [] := by
  cases rs with
  | nil => rfl
  | cons r rs => exfalso; have := recStep_ge r; simp [walkLen] at h; omega

/-! Byte-read facts. -/

theorem byteAt_drop (buf : List Nat) (d i : Nat) : byteAt (buf.drop d) i = byteAt buf (d + i) := by
  simp [byteAt, List.getD_eq_getElem?_getD, List.getElem?_drop]

theorem byteAt_take (buf : List Nat) (k i : Nat) (h : i < k) :
    byteAt (buf.take k) i = byteAt buf i := by
  simp [byteAt, List.getD_eq_getElem?_getD]
  rw [List.getElem?_take]
  simp [h]

theorem byteAt_append_left (l1 l2 : List Nat) (i : Nat) (h : i < l1.length) :
    byteAt (l1 ++ l2) i = byteAt l1 i := by
  simp [byteAt, List.getD_eq_getElem?_getD]
  rw [List.getElem?_append]
  simp [h]

theorem byteAt_append_right (l1 l2 : List Nat) (k : Nat) :
    byteAt (l1 ++ l2) (l1.length + k) = byteAt l2 k := by
  simp [byteAt, List.getD_eq_getElem?_getD]
  rw [List.getElem?_append_right (by omega)]
  simp

/-! strlen facts: the walk reads back exactly the zero-free string that was
stored when its terminator is inside the area. -/

theorem byteAt_eq_getElem (buf : List Nat) (off : Nat) (h : off < buf.length) :
    byteAt buf off = buf[off] := by
  simp [byteAt, List.getD_eq_getElem?_getD, List.getElem?_eq_getElem h]

theorem strlenFrom_zero (buf : List Nat) (off : Nat)
    (h : byteAt buf off = 0 ∨ buf.length ≤ off) : strlenFrom buf off = 0 := by
  rcases h with h | h
  · by_cases hlt : off < buf.length
    · have hb : buf[off] = 0 := by rw [← byteAt_eq_getElem buf off hlt]; exact h
      unfold strlenFrom
      rw [List.drop_eq_getElem_cons hlt]
      simp [List.takeWhile_cons, hb]
    · unfold strlenFrom
      rw [List.drop_eq_nil_of_le (by omega)]
      rfl
  · unfold strlenFrom
    rw [List.drop_eq_nil_of_le h]
    rfl

theorem strlenFrom_succ (buf : List Nat) (off : Nat)
    (h : byteAt buf off ≠ 0) (hlt : off < buf.length) :
    strlenFrom buf off = strlenFrom buf (off + 1) + 1 := by
  have hb : buf[off] ≠ 0 := by rw [← byteAt_eq_getElem buf off hlt]; exact h
  unfold strlenFrom
  rw [List.drop_eq_getElem_cons hlt, List.takeWhile_cons_of_pos (by simpa using hb)]
  rfl

theorem strlenFrom_eq_of (buf : List Nat) (n : Nat) : ∀ off : Nat,
    (∀ i, i < n → byteAt buf (off + i) ≠ 0) →
    byteAt buf (off + n) = 0 → off + n < buf.length →
    strlenFrom buf off = n := by
  induction n with
  | zero =>
    intro off _ hz _
    exact strlenFrom_zero buf off (Or.inl (by simpa using hz))
  | succ n ih =>
    intro off hnz hz hlt
    have h0 : byteAt buf off ≠ 0 := by simpa using hnz 0 (by omega)
    have hstep := strlenFrom_succ buf off h0 (by omega)
    have htail : strlenFrom buf (off + 1) = n := by
      apply ih (off + 1)
      · intro i hi
        have := hnz (i + 1) (by omega)
        simpa [Nat.add_assoc, Nat.add_comm 1 i] using this
      · simpa [Nat.add_assoc, Nat.add_comm 1 n] using hz
      · omega
    omega

theorem byteAt_ext (buf : List Nat) (i j : Nat) (h : i = j) : byteAt buf i = byteAt buf j := by
  rw [h]

/-- Unfold recordStoredAt into its nine propositional components. -/
theorem recordStoredAt_iff (buf : List Nat) (off : Nat) (r : Rec) :
    recordStoredAt buf off r = true ↔
    (off + rawLen r ≤ buf.length ∧
     r.name.all (fun b => b != 0) = true ∧ r.payload.all (fun b => b != 0) = true ∧
     byteAt buf (off + 0) = r.port % 256 ∧
     byteAt buf (off + 1) = r.port / 256 % 256 ∧
     (∀ i, i < r.name.length → byteAt buf (off + (EVT_SIZE + i)) = r.name.getD i 0) ∧
     byteAt buf (off + (EVT_SIZE + r.name.length)) = 0 ∧
     (∀ i, i < r.payload.length →
       byteAt buf (off + (EVT_SIZE + r.name.length + 1 + i)) = r.payload.getD i 0) ∧
     byteAt buf (off + (EVT_SIZE + r.name.length + 1 + r.payload.length)) = 0) := by
  unfold recordStoredAt
  simp [Bool.and_eq_true, decide_eq_true_iff, and_assoc]

theorem strlen_name (buf : List Nat) (off : Nat) (r : Rec)
    (h : recordStoredAt buf off r = true) :
    strlenFrom buf (off + EVT_SIZE) = r.name.length := by
  rw [recordStoredAt_iff] at h
  obtain ⟨hb, hn, _, _, _, hname, hnt, _, _⟩ := h
  apply strlenFrom_eq_of
  · intro i hi
    rw [byteAt_ext buf (off + EVT_SIZE + i) (off + (EVT_SIZE + i)) (by omega), hname i hi]
    have hmem : r.name.getD i 0 ∈ r.name := by
      simp [List.getD_eq_getElem?_getD, List.getElem?_eq_getElem hi]
    have := List.all_eq_true.mp hn _ hmem
    simpa using this
  · rw [byteAt_ext buf (off + EVT_SIZE + r.name.length) (off + (EVT_SIZE + r.name.length))
      (by omega)]
    exact hnt
  · have := rawLen_ge r
    unfold rawLen at hb
    omega

theorem strlen_payload (buf : List Nat) (off : Nat) (r : Rec)
    (h : recordStoredAt buf off r = true) :
    strlenFrom buf (off + EVT_SIZE + r.name.length + 1) = r.payload.length := by
  rw [recordStoredAt_iff] at h
  obtain ⟨hb, _, hp, _, _, _, _, hpay, hpt⟩ := h
  apply strlenFrom_eq_of
  · intro i hi
    rw [byteAt_ext buf (off + EVT_SIZE + r.name.length + 1 + i)
      (off + (EVT_SIZE + r.name.length + 1 + i)) (by omega), hpay i hi]
    have hmem : r.payload.getD i 0 ∈ r.payload := by
      simp [List.getD_eq_getElem?_getD, List.getElem?_eq_getElem hi]
    have := List.all_eq_true.mp hp _ hmem
    simpa using this
  · rw [byteAt_ext buf (off + EVT_SIZE + r.name.length + 1 + r.payload.length)
      (off + (EVT_SIZE + r.name.length + 1 + r.payload.length)) (by omega)]
    exact hpt
  · unfold rawLen at hb
    omega

/-- skipEvent moves over a stored record by exactly its padded size, when
the record starts 4-aligned (as every record reachable from offset 0 does). -/
theorem skipEvent_stored (buf : List Nat) (off : Nat) (r : Rec)
    (h : recordStoredAt buf off r = true) (h4 : off % 4 = 0) :
    skipEvent buf off = off + recStep r := by
  show align4 (off + EVT_SIZE + strlenFrom buf (off + EVT_SIZE) + 1 +
      strlenFrom buf (off + EVT_SIZE + strlenFrom buf (off + EVT_SIZE) + 1) + 1 + HDR_SIZE)
      - HDR_SIZE = off + recStep r
  rw [strlen_name buf off r h, strlen_payload buf off r h]
  have hraw : off + EVT_SIZE + r.name.length + 1 + r.payload.length + 1 + HDR_SIZE
      = (off + HDR_SIZE) + rawLen r := by
    unfold rawLen; omega
  rw [hraw, align4_add_left (off + HDR_SIZE) (rawLen r) (by unfold HDR_SIZE; omega)]
  unfold recStep HDR_SIZE
  omega

/-! Transfer lemmas: a stored record only depends on the bytes of its span,
so storing survives shifting the span to another (4-aligned) place. -/

theorem recordStoredAt_shift (buf buf2 : List Nat) (off off2 : Nat) (r : Rec)
    (hb : off2 + rawLen r ≤ buf2.length)
    (hag : ∀ i, i < rawLen r → byteAt buf2 (off2 + i) = byteAt buf (off + i))
    (h : recordStoredAt buf off r = true) : recordStoredAt buf2 off2 r = true := by
  have he : EVT_SIZE = 2 := rfl
  have hr : rawLen r = EVT_SIZE + r.name.length + 1 + r.payload.length + 1 := rfl
  rw [recordStoredAt_iff] at h ⊢
  obtain ⟨_, hn, hp, h0, h1, hname, hnt, hpay, hpt⟩ := h
  refine ⟨hb, hn, hp, ?_, ?_, ?_, ?_, ?_, ?_⟩
  · rw [hag 0 (by omega)]; exact h0
  · rw [hag 1 (by omega)]; exact h1
  · intro i hi
    rw [hag (EVT_SIZE + i) (by omega)]
    exact hname i hi
  · rw [hag (EVT_SIZE + r.name.length) (by omega)]
    exact hnt
  · intro i hi
    rw [hag (EVT_SIZE + r.name.length + 1 + i) (by omega)]
    exact hpay i hi
  · rw [hag (EVT_SIZE + r.name.length + 1 + r.payload.length) (by omega)]
    exact hpt

theorem storedFrom_shift (buf buf2 : List Nat) (rs : List Rec) : ∀ off off2 : Nat,
    off2 + walkLen rs ≤ buf2.length →
    (∀ i, i < walkLen rs → byteAt buf2 (off2 + i) = byteAt buf (off + i)) →
    storedFrom buf off rs = true → storedFrom buf2 off2 rs = true := by
  induction rs with
  | nil => intro off off2 _ _ _; rfl
  | cons r rs ih =>
    intro off off2 hb hag h
    have hw : walkLen (r :: rs) = recStep r + walkLen rs := rfl
    have hrr := rawLen_le_recStep r
    simp only [storedFrom, Bool.and_eq_true] at h ⊢
    obtain ⟨h1, h2⟩ := h
    refine ⟨?_, ?_⟩
    · exact recordStoredAt_shift buf buf2 off off2 r (by omega)
        (fun i hi => hag i (by omega)) h1
    · apply ih (off + recStep r) (off2 + recStep r) (by omega)
      · intro i hi
        have hx := hag (recStep r + i) (by omega)
        rw [byteAt_ext buf2 (off2 + recStep r + i) (off2 + (recStep r + i)) (by omega), hx,
            byteAt_ext buf (off + (recStep r + i)) (off + recStep r + i) (by omega)]
      · exact h2

theorem storedFrom_append (buf : List Nat) (xs ys : List Rec) : ∀ off : Nat,
    storedFrom buf off (xs ++ ys)
      = (storedFrom buf off xs && storedFrom buf (off + walkLen xs) ys) := by
  induction xs with
  | nil => intro off; simp [storedFrom, walkLen]
  | cons x xs ih =>
    intro off
    simp only [List.cons_append, storedFrom, List.append_eq, walkLen, ih, Bool.and_assoc,
      Nat.add_assoc]

theorem walkLen_mod (rs : List Rec) : walkLen rs % 4 = 0 := by
  induction rs with
  | nil => rfl
  | cons r rs ih =>
    have := recStep_mod r
    simp only [walkLen]
    omega

/-! The compacted buffer produced by discardAt's memmove: the prefix below
start is kept, the bytes from next to the end move down to start, and the
last next - start bytes keep their stale values. -/

def compacted (buf : List Nat) (start next : Nat) : List Nat :=
  buf.take start ++ (buf.drop next ++ buf.drop (start + (buf.length - next)))

theorem writeBytes_compacted (buf : List Nat) (start next : Nat) :
    writeBytes buf start ((buf.drop next).take (buf.length - next))
      = compacted buf start next := by
  unfold writeBytes compacted
  rw [@List.take_of_length_le _ (buf.length - next) (buf.drop next) (by simp [List.length_drop])]
  rw [List.length_drop]
  simp [List.append_assoc]

theorem compacted_length (buf : List Nat) (start next : Nat)
    (hsn : start ≤ next) (hn : next ≤ buf.length) :
    (compacted buf start next).length = buf.length := by
  unfold compacted
  simp [List.length_take, List.length_drop]
  omega

theorem compacted_low (buf : List Nat) (start next i : Nat)
    (hsl : start ≤ buf.length) (hi : i < start) :
    byteAt (compacted buf start next) i = byteAt buf i := by
  unfold compacted
  rw [byteAt_append_left _ _ i (by simp [List.length_take]; omega)]
  exact byteAt_take buf start i hi

theorem compacted_mid (buf : List Nat) (start next k : Nat)
    (hsl : start ≤ buf.length) (hk : k < buf.length - next) :
    byteAt (compacted buf start next) (start + k) = byteAt buf (next + k) := by
  unfold compacted
  have h1 : (buf.take start).length = start := by simp [List.length_take]; omega
  rw [show start + k = (buf.take start).length + k by rw [h1]]
  rw [byteAt_append_right]
  rw [byteAt_append_left _ _ k (by simp [List.length_drop]; omega)]
  exact byteAt_drop buf next k

theorem compacted_take (buf : List Nat) (start next : Nat) (hsl : start ≤ buf.length) :
    (compacted buf start next).take start = buf.take start := by
  have h1 : (buf.take start).length = start := by simp [List.length_take]; omega
  unfold compacted
  rw [List.take_append_eq_append_take, h1]
  simp [List.take_take]

theorem discardAt_same (s : QState) (start : Nat) :
    (discardAt s start).retainedBufferSize = s.retainedBufferSize ∧
    (discardAt s start).magic = s.magic ∧ (discardAt s start).sizeField = s.sizeField ∧
    (discardAt s start).isSending = s.isSending ∧
    (discardAt s start).lastPublish = s.lastPublish ∧
    (discardAt s start).eventName = s.eventName ∧ (discardAt s start).data = s.data ∧
    (discardAt s start).handler = s.handler :=
  ⟨rfl, rfl, rfl, rfl, rfl, rfl, rfl, rfl⟩

/-- Core compaction correctness: removing the record r stored behind the
records pre (its area offset is walkLen pre) leaves exactly pre ++ post
stored, keeps every byte below that offset, and adjusts cursor and count. -/
theorem discardAt_valid (s : QState) (pre post : List Rec) (r : Rec)
    (hv : validState s (pre ++ r :: post)) :
    validState (discardAt s (walkLen pre)) (pre ++ post) ∧
    (discardAt s (walkLen pre)).buf.take (walkLen pre) = s.buf.take (walkLen pre) ∧
    (discardAt s (walkLen pre)).nextFree = s.nextFree - recStep r ∧
    (discardAt s (walkLen pre)).numEvents = s.numEvents - 1 := by
  obtain ⟨hh, hlen, hst, hne, hnf, hcap⟩ := hv
  have hwl : walkLen (pre ++ r :: post) = walkLen pre + (recStep r + walkLen post) := by
    rw [walkLen_append]; rfl
  have hlenpre : (pre ++ r :: post).length = pre.length + (post.length + 1) := by
    simp
  have hlenpp : (pre ++ post).length = pre.length + post.length := by simp
  have hwlpp : walkLen (pre ++ post) = walkLen pre + walkLen post := walkLen_append pre post
  rw [storedFrom_append] at hst
  simp only [storedFrom, Bool.and_eq_true, Nat.zero_add] at hst
  obtain ⟨hpre, hr, hpost⟩ := hst
  have hstep := recStep_ge r
  have hnext : skipEvent s.buf (walkLen pre) = walkLen pre + recStep r :=
    skipEvent_stored s.buf (walkLen pre) r hr (walkLen_mod pre)
  have harea : s.areaEnd = s.buf.length := by
    unfold QState.areaEnd; omega
  rw [hwl] at hcap
  have hcapb : walkLen pre + (recStep r + walkLen post) ≤ s.buf.length := by omega
  have hbuf : (discardAt s (walkLen pre)).buf
      = if 0 < s.areaEnd - skipEvent s.buf (walkLen pre) then
          writeBytes s.buf (walkLen pre)
            ((s.buf.drop (skipEvent s.buf (walkLen pre))).take
              (s.areaEnd - skipEvent s.buf (walkLen pre)))
        else s.buf := rfl
  rw [hnext, harea] at hbuf
  have hnf1 : (discardAt s (walkLen pre)).nextFree
      = s.nextFree - (skipEvent s.buf (walkLen pre) - walkLen pre) := rfl
  rw [hnext] at hnf1
  have hnum : (discardAt s (walkLen pre)).numEvents = s.numEvents - 1 := rfl
  have hbs : (discardAt s (walkLen pre)).retainedBufferSize = s.retainedBufferSize := rfl
  by_cases hafter : 0 < s.buf.length - (walkLen pre + recStep r)
  · rw [if_pos hafter, writeBytes_compacted] at hbuf
    have hlen' : (discardAt s (walkLen pre)).buf.length = s.buf.length := by
      rw [hbuf]
      exact compacted_length s.buf (walkLen pre) (walkLen pre + recStep r) (by omega) (by omega)
    refine ⟨⟨by omega, by omega, ?_, by omega, by omega, by omega⟩, ?_, by omega, hnum⟩
    · rw [storedFrom_append, Bool.and_eq_true]
      refine ⟨?_, ?_⟩
      · apply storedFrom_shift s.buf (discardAt s (walkLen pre)).buf pre 0 0 (by omega)
        · intro i hi
          simp only [Nat.zero_add]
          rw [hbuf]
          exact compacted_low s.buf (walkLen pre) (walkLen pre + recStep r) i (by omega) hi
        · exact hpre
      · apply storedFrom_shift s.buf (discardAt s (walkLen pre)).buf post
          (walkLen pre + recStep r) (0 + walkLen pre) (by omega)
        · intro i hi
          simp only [Nat.zero_add]
          rw [hbuf]
          exact compacted_mid s.buf (walkLen pre) (walkLen pre + recStep r) i (by omega)
            (by omega)
        · exact hpost
    · rw [hbuf]
      exact compacted_take s.buf (walkLen pre) (walkLen pre + recStep r) (by omega)
  · rw [if_neg hafter] at hbuf
    have hpost0 : post = [] := walkLen_eq_zero post (by omega)
    subst hpost0
    have hlen' : (discardAt s (walkLen pre)).buf.length = s.buf.length := by rw [hbuf]
    refine ⟨⟨by omega, by omega, ?_, by omega, by omega, by omega⟩, by rw [hbuf], by omega, hnum⟩
    rw [storedFrom_append, Bool.and_eq_true]
    exact ⟨by rw [hbuf]; exact hpre, by rfl⟩

/-- discardOldEvent false removes exactly the oldest stored record. -/
theorem discardOldEvent_first (s : QState) (r : Rec) (rs : List Rec)
    (hv : validState s (r :: rs)) :
    discardOldEvent s false = (true, discardAt s 0) ∧ validState (discardAt s 0) rs := by
  have hne : s.numEvents = rs.length + 1 := by simpa using hv.2.2.2.1
  have hmain := discardAt_valid s [] rs r (by simpa using hv)
  refine ⟨?_, by simpa [walkLen] using hmain.1⟩
  show (if s.numEvents < 1 then (false, s) else (true, discardAt s 0)) = (true, discardAt s 0)
  rw [if_neg (by omega)]

/-- discardOldEvent true removes exactly the second-oldest stored record and
keeps every byte of the first one. -/
theorem discardOldEvent_second (s : QState) (r1 r2 : Rec) (rs : List Rec)
    (hv : validState s (r1 :: r2 :: rs)) :
    discardOldEvent s true = (true, discardAt s (recStep r1)) ∧
    validState (discardAt s (recStep r1)) (r1 :: rs) ∧
    (discardAt s (recStep r1)).buf.take (recStep r1) = s.buf.take (recStep r1) := by
  have hne : s.numEvents = rs.length + 2 := by simpa using hv.2.2.2.1
  have hmain := discardAt_valid s [r1] rs r2 (by simpa using hv)
  have hw1 : walkLen [r1] = recStep r1 := by simp [walkLen]
  rw [hw1] at hmain
  have hr1 : recordStoredAt s.buf 0 r1 = true := by
    have hs := hv.2.2.1
    simp only [storedFrom, Bool.and_eq_true] at hs
    exact hs.1
  have hskip : skipEvent s.buf 0 = recStep r1 := by
    have hz := skipEvent_stored s.buf 0 r1 hr1 (by omega)
    simpa using hz
  refine ⟨?_, by simpa using hmain.1, hmain.2.1⟩
  show (if s.numEvents < 2 then (false, s) else (true, discardAt s (skipEvent s.buf 0)))
      = (true, discardAt s (recStep r1))
  rw [if_neg (by omega), hskip]

/-- discardOldEvent never moves the cursor up and never touches the header
fields or the region size. -/
theorem discardOldEvent_frame (s : QState) (b : Bool) :
    (discardOldEvent s b).2.nextFree ≤ s.nextFree ∧
    (discardOldEvent s b).2.magic = s.magic ∧
    (discardOldEvent s b).2.sizeField = s.sizeField ∧
    (discardOldEvent s b).2.retainedBufferSize = s.retainedBufferSize := by
  unfold discardOldEvent
  cases b
  · by_cases h : s.numEvents < 1
    · rw [if_neg (by simp), if_pos h]
      exact ⟨Nat.le_refl _, rfl, rfl, rfl⟩
    · rw [if_neg (by simp), if_neg h]
      exact ⟨Nat.sub_le _ _, rfl, rfl, rfl⟩
  · by_cases h : s.numEvents < 2
    · rw [if_pos rfl, if_pos h]
      exact ⟨Nat.le_refl _, rfl, rfl, rfl⟩
    · rw [if_pos rfl, if_neg h]
      exact ⟨Nat.sub_le _ _, rfl, rfl, rfl⟩

/-- A successful constructor walk from offset 0 never ends past the end. -/
theorem walkEvents_le (buf : List Nat) (L : Nat) : ∀ n off off',
    walkEvents buf L n off = some off' → off' = off ∨ off' ≤ L := by
  intro n
  induction n with
  | zero =>
    intro off off' h
    simp only [walkEvents, Option.some.injEq] at h
    exact Or.inl h.symm
  | succ n ih =>
    intro off off' h
    simp only [walkEvents] at h
    by_cases hgt : skipEvent buf off > L
    · rw [if_pos hgt] at h; cases h
    · rw [if_neg hgt] at h
      rcases ih (skipEvent buf off) off' h with heq | hle
      · exact Or.inr (by omega)
      · exact Or.inr hle

/-- C7: an enqueue whose padded encoded size exceeds the region size minus
the header size returns false immediately and leaves the header fields, the
cursor and all stored record bytes unchanged, whatever number of records is
currently stored. -/
theorem publish_oversized_rejected (s : QState) (hostName : List Nat) (port : Nat)
    (path body : List Nat)
    (hsize : align4 (EVT_SIZE + hostName.length + path.length + body.length + 3)
      > s.retainedBufferSize - HDR_SIZE) :
    (publish s hostName port path body).1 = false ∧
    (publish s hostName port path body).2.buf = s.buf ∧
    (publish s hostName port path body).2.magic = s.magic ∧
    (publish s hostName port path body).2.sizeField = s.sizeField ∧
    (publish s hostName port path body).2.numEvents = s.numEvents ∧
    (publish s hostName port path body).2.nextFree = s.nextFree := by
  have hp : publish s hostName port path body
      = (false, { s with data := some (s.data.getD []) }) := by
    unfold publish
    dsimp only
    rw [if_pos hsize]
  rw [hp]
  exact ⟨rfl, rfl, rfl, rfl, rfl, rfl⟩

/-- C8: with exactly one stored record, an enqueue whose record does not fit
in the remaining free tail returns false and preserves the stored bytes, the
record count, the cursor and the header fields. -/
theorem publish_single_event_preserved (s : QState) (hostName : List Nat) (port : Nat)
    (path body : List Nat) (hone : s.numEvents = 1)
    (hnofit : s.retainedBufferSize - HDR_SIZE - s.nextFree
      < align4 (EVT_SIZE + hostName.length + path.length + body.length + 3)) :
    (publish s hostName port path body).1 = false ∧
    (publish s hostName port path body).2.buf = s.buf ∧
    (publish s hostName port path body).2.magic = s.magic ∧
    (publish s hostName port path body).2.sizeField = s.sizeField ∧
    (publish s hostName port path body).2.numEvents = s.numEvents ∧
    (publish s hostName port path body).2.nextFree = s.nextFree := by
  have hp : publish s hostName port path body
      = (false, { s with data := some (s.data.getD []) }) := by
    unfold publish
    dsimp only
    by_cases hover : align4 (EVT_SIZE + hostName.length + path.length + body.length + 3)
        > s.retainedBufferSize - HDR_SIZE
    · rw [if_pos hover]
    · rw [if_neg hover]
      rw [if_neg (by unfold QState.areaEnd; dsimp only; omega)]
      rw [if_pos (by rw [hone]; rfl)]
  rw [hp]
  exact ⟨rfl, rfl, rfl, rfl, rfl, rfl⟩

/-- C5: on a drain tick that performs a transport attempt (queue non-empty,
connectivity ready, minimum interval elapsed): a status in [200,300) removes
exactly the oldest record and stays in checkQueueState; any other status
removes nothing and moves to waitRetryState; in both outcomes isSending ends
false and lastPublish is set to the attempt time. -/
theorem checkQueueState_attempt (s : QState) (r : Rec) (rs : List Rec) (now : Nat)
    (status : Int) (hv : validState s (r :: rs)) (hh : s.handler = HState.checkQueue)
    (helapsed : elapsed now s.lastPublish ≥ 1010) :
    ((200 ≤ status ∧ status < 300) →
      validState (checkQueueState s true now status) rs ∧
      (checkQueueState s true now status).handler = HState.checkQueue ∧
      (checkQueueState s true now status).numEvents = s.numEvents - 1) ∧
    (¬(200 ≤ status ∧ status < 300) →
      (checkQueueState s true now status).buf = s.buf ∧
      (checkQueueState s true now status).numEvents = s.numEvents ∧
      (checkQueueState s true now status).nextFree = s.nextFree ∧
      (checkQueueState s true now status).handler = HState.waitRetry) ∧
    (checkQueueState s true now status).isSending = false ∧
    (checkQueueState s true now status).lastPublish = now % U32 := by
  have hne : s.numEvents = rs.length + 1 := by simpa using hv.2.2.2.1
  have hcond : s.numEvents > 0 ∧ (true : Bool) = true ∧ elapsed now s.lastPublish ≥ 1010 :=
    ⟨by omega, rfl, helapsed⟩
  by_cases hst : 200 ≤ status ∧ status < 300
  · have hv1 : validState { s with isSending := true } (r :: rs) := hv
    obtain ⟨heq, hval⟩ := discardOldEvent_first { s with isSending := true } r rs hv1
    have hc : checkQueueState s true now status
        = { (discardOldEvent { s with isSending := true } false).2 with
            isSending := false, lastPublish := now % U32 } := by
      unfold checkQueueState
      rw [if_pos hcond]
      dsimp only
      rw [if_pos hst]
    rw [heq] at hc
    refine ⟨fun _ => ⟨?_, ?_, ?_⟩, fun hn => absurd hst hn, ?_, ?_⟩
    · rw [hc]; exact hval
    · rw [hc]; exact hh
    · rw [hc]; try rfl
    · rw [hc]; try rfl
    · rw [hc]; try rfl
  · have hc : checkQueueState s true now status
        = { { { s with isSending := true } with handler := HState.waitRetry } with
            isSending := false, lastPublish := now % U32 } := by
      unfold checkQueueState
      rw [if_pos hcond]
      dsimp only
      rw [if_neg hst]
    refine ⟨fun hy => absurd hy hst, fun _ => ⟨?_, ?_, ?_, ?_⟩, ?_, ?_⟩ <;> rw [hc]

/-- C6: with at least two stored records and a send in flight, the eviction
publish performs (discardOldEvent with the isSending flag) removes the
second-oldest record, not the first, and leaves every byte of the first
(in-flight) record unaltered. -/
theorem evict_while_sending_removes_second (s : QState) (r1 r2 : Rec) (rs : List Rec)
    (hv : validState s (r1 :: r2 :: rs)) (hsend : s.isSending = true) :
    (discardOldEvent s s.isSending).1 = true ∧
    validState (discardOldEvent s s.isSending).2 (r1 :: rs) ∧
    (discardOldEvent s s.isSending).2.buf.take (recStep r1) = s.buf.take (recStep r1) := by
  rw [hsend]
  obtain ⟨heq, hval, htake⟩ := discardOldEvent_second s r1 r2 rs hv
  rw [heq]
  exact ⟨rfl, hval, htake⟩

/-- C9: the constructor resets the region (header magic and size rewritten,
numEvents zeroed, cursor at the header end, record bytes untouched) exactly
when the magic is wrong, the stored size differs from the region size, or
walking the recorded number of events runs past the end; otherwise it keeps
the header and records and recomputes the cursor as the walk's end; and it
is idempotent (and, being a function, deterministic and total). -/
theorem construct_reset_eq (m sz ne : Nat) (buf : List Nat) (bufSize : Nat) (en : List Nat)
    (dm : Option (List Nat))
    (h : ¬(m = MAGIC ∧ sz = bufSize) ∨ walkEvents buf (bufSize - HDR_SIZE) ne 0 = none) :
    construct m sz ne buf bufSize en dm
      = { retainedBufferSize := bufSize, buf := buf, magic := MAGIC, sizeField := bufSize,
          numEvents := 0, nextFree := 0, isSending := false, lastPublish := 0,
          eventName := en, data := dm, handler := HState.start } := by
  unfold construct
  dsimp only
  rcases h with h | h
  · rw [if_neg h]
  · by_cases hv : m = MAGIC ∧ sz = bufSize
    · rw [if_pos hv, h]
    · rw [if_neg hv]

theorem construct_keep_eq (m sz ne : Nat) (buf : List Nat) (bufSize : Nat) (en : List Nat)
    (dm : Option (List Nat)) (off : Nat) (hv : m = MAGIC ∧ sz = bufSize)
    (hw : walkEvents buf (bufSize - HDR_SIZE) ne 0 = some off) :
    construct m sz ne buf bufSize en dm
      = { retainedBufferSize := bufSize, buf := buf, magic := m, sizeField := sz,
          numEvents := ne, nextFree := off, isSending := false, lastPublish := 0,
          eventName := en, data := dm, handler := HState.start } := by
  unfold construct
  dsimp only
  rw [if_pos hv, hw]

theorem construct_empty_eq (buf : List Nat) (bufSize : Nat) (en : List Nat)
    (dm : Option (List Nat)) :
    construct MAGIC bufSize 0 buf bufSize en dm
      = { retainedBufferSize := bufSize, buf := buf, magic := MAGIC, sizeField := bufSize,
          numEvents := 0, nextFree := 0, isSending := false, lastPublish := 0,
          eventName := en, data := dm, handler := HState.start } := by
  unfold construct
  dsimp only
  rw [if_pos ⟨rfl, rfl⟩]
  rfl

theorem construct_spec (m sz ne : Nat) (buf : List Nat) (bufSize : Nat) (en : List Nat)
    (dm : Option (List Nat)) :
    ((¬(m = MAGIC ∧ sz = bufSize) ∨ walkEvents buf (bufSize - HDR_SIZE) ne 0 = none) →
      construct m sz ne buf bufSize en dm
        = { retainedBufferSize := bufSize, buf := buf, magic := MAGIC, sizeField := bufSize,
            numEvents := 0, nextFree := 0, isSending := false, lastPublish := 0,
            eventName := en, data := dm, handler := HState.start }) ∧
    (∀ off, (m = MAGIC ∧ sz = bufSize) →
      walkEvents buf (bufSize - HDR_SIZE) ne 0 = some off →
      construct m sz ne buf bufSize en dm
        = { retainedBufferSize := bufSize, buf := buf, magic := m, sizeField := sz,
            numEvents := ne, nextFree := off, isSending := false, lastPublish := 0,
            eventName := en, data := dm, handler := HState.start }) ∧
    construct (construct m sz ne buf bufSize en dm).magic
        (construct m sz ne buf bufSize en dm).sizeField
        (construct m sz ne buf bufSize en dm).numEvents
        (construct m sz ne buf bufSize en dm).buf bufSize en dm
      = construct m sz ne buf bufSize en dm := by
  refine ⟨construct_reset_eq m sz ne buf bufSize en dm,
    fun off hv hw => construct_keep_eq m sz ne buf bufSize en dm off hv hw, ?_⟩
  by_cases hv : m = MAGIC ∧ sz = bufSize
  · cases hw : walkEvents buf (bufSize - HDR_SIZE) ne 0 with
    | some off =>
      rw [construct_keep_eq m sz ne buf bufSize en dm off hv hw]
      dsimp only
      exact construct_keep_eq m sz ne buf bufSize en dm off hv hw
    | none =>
      rw [construct_reset_eq m sz ne buf bufSize en dm (Or.inr hw)]
      dsimp only
      exact construct_empty_eq buf bufSize en dm
  · rw [construct_reset_eq m sz ne buf bufSize en dm (Or.inl hv)]
    dsimp only
    exact construct_empty_eq buf bufSize en dm

/-- C10 (amended): construction leaves the cursor's area offset at most the
usable length (so the absolute cursor is at most the region size), and
every public operation — publish, clearEvents, discardOldEvent — keeps
hdr->magic and hdr->size unchanged and keeps the cursor offset at most the
region size.  The original claim's lower bound (cursor offset at least the
header size) is false of the program: discardOldEvent's `nextFree -= len`
can move the cursor below the header end, as the C10 counterexample below
shows via discardCursor, so only the upper half of the interval is stated
here. -/
theorem header_and_cursor_invariant :
    (∀ (m sz ne : Nat) (buf : List Nat) (bufSize : Nat) (en : List Nat)
       (dm : Option (List Nat)),
      (construct m sz ne buf bufSize en dm).nextFree ≤ bufSize - HDR_SIZE ∧
      (construct m sz ne buf bufSize en dm).retainedBufferSize = bufSize) ∧
    (∀ s : QState, s.nextFree ≤ s.retainedBufferSize - HDR_SIZE →
      ∀ (hostName : List Nat) (port : Nat) (path body : List Nat),
        (publish s hostName port path body).2.magic = s.magic ∧
        (publish s hostName port path body).2.sizeField = s.sizeField ∧
        (publish s hostName port path body).2.nextFree
          ≤ s.retainedBufferSize - HDR_SIZE) ∧
    (∀ s : QState, s.nextFree ≤ s.retainedBufferSize - HDR_SIZE →
      (clearEvents s).2.magic = s.magic ∧ (clearEvents s).2.sizeField = s.sizeField ∧
      (clearEvents s).2.nextFree ≤ s.retainedBufferSize - HDR_SIZE) ∧
    (∀ s : QState, s.nextFree ≤ s.retainedBufferSize - HDR_SIZE → ∀ b : Bool,
      (discardOldEvent s b).2.magic = s.magic ∧
      (discardOldEvent s b).2.sizeField = s.sizeField ∧
      (discardOldEvent s b).2.nextFree ≤ s.retainedBufferSize - HDR_SIZE) := by
  refine ⟨?_, ?_, ?_, ?_⟩
  · intro m sz ne buf bufSize en dm
    by_cases hv : m = MAGIC ∧ sz = bufSize
    · cases hw : walkEvents buf (bufSize - HDR_SIZE) ne 0 with
      | some off =>
        rw [construct_keep_eq m sz ne buf bufSize en dm off hv hw]
        have hle := walkEvents_le buf (bufSize - HDR_SIZE) ne 0 off hw
        exact ⟨by dsimp only; omega, rfl⟩
      | none =>
        rw [construct_reset_eq m sz ne buf bufSize en dm (Or.inr hw)]
        exact ⟨by dsimp only; omega, rfl⟩
    · rw [construct_reset_eq m sz ne buf bufSize en dm (Or.inl hv)]
      exact ⟨by dsimp only; omega, rfl⟩
  · intro s hinv hostName port path body
    unfold publish
    dsimp only
    by_cases hover : align4 (EVT_SIZE + hostName.length + path.length + body.length + 3)
        > s.retainedBufferSize - HDR_SIZE
    · rw [if_pos hover]
      exact ⟨rfl, rfl, hinv⟩
    · rw [if_neg hover]
      split
      · rename_i hfit
        unfold QState.areaEnd at hfit
        dsimp only at hfit
        refine ⟨rfl, rfl, ?_⟩
        dsimp only
        omega
      · split
        · exact ⟨rfl, rfl, hinv⟩
        · obtain ⟨hle, hm, hsf, _⟩ :=
            discardOldEvent_frame { s with data := some (s.data.getD []) } s.isSending
          have hle' : (discardOldEvent { s with data := some (s.data.getD []) }
              s.isSending).2.nextFree ≤ s.nextFree := hle
          refine ⟨hm, hsf, ?_⟩
          dsimp only
          omega
  · intro s hinv
    unfold clearEvents
    split
    · exact ⟨rfl, rfl, hinv⟩
    · exact ⟨rfl, rfl, hinv⟩
  · intro s hinv b
    obtain ⟨hle, hm, hsf, _⟩ := discardOldEvent_frame s b
    exact ⟨hm, hsf, by omega⟩

/-! Concrete states used to evaluate the code on failing inputs and to
witness the general theorems. -/

def host1 : List Nat := [104, 111, 115, 116, 49]

def pathA : List Nat := [47, 97]

def bodyB : List Nat := [98]

/-- An empty, freshly initialized 24-byte region (16-byte record area), the
class members holding eventName = "e" and data = "d". -/
def sEmpty : QState :=
  { retainedBufferSize := 24, buf := List.replicate 16 0, magic := MAGIC, sizeField := 24,
    numEvents := 0, nextFree := 0, isSending := false, lastPublish := 0,
    eventName := [101], data := some [100], handler := HState.checkQueue }

def rA : Rec := { port := 80, name := [104], payload := [97] }

def rB : Rec := { port := 81, name := [105], payload := [98] }

/-- The record area of a 24-byte region holding rA then rB (8 bytes each). -/
def bufTwo : List Nat := [80, 0, 104, 0, 97, 0, 0, 0, 81, 0, 105, 0, 98, 0, 0, 0]

def sTwo : QState :=
  { retainedBufferSize := 24, buf := bufTwo, magic := MAGIC, sizeField := 24,
    numEvents := 2, nextFree := 16, isSending := false, lastPublish := 0,
    eventName := [101], data := some [100], handler := HState.checkQueue }

def sTwoSending : QState := { sTwo with isSending := true }

/-- A 24-byte region holding only rA, cursor at area offset 8. -/
def sOne : QState :=
  { retainedBufferSize := 24, buf := [80, 0, 104, 0, 97, 0, 0, 0, 0, 0, 0, 0, 0, 0, 0, 0],
    magic := MAGIC, sizeField := 24, numEvents := 1, nextFree := 8, isSending := false,
    lastPublish := 0, eventName := [101], data := some [100], handler := HState.checkQueue }

/-- A 10-byte eventName member, longer than the parameter strings publish
sizes the record by. -/
def eName10 : List Nat := [101, 101, 101, 101, 101, 101, 101, 101, 101, 101]

/-- A freshly constructed 24-byte region (wrong magic 0, so it self-heals to
empty) whose object carries the members eventName = eName10, data = "". -/
def sUnderStart : QState := construct 0 24 0 (List.replicate 16 0) 24 eName10 (some [])

/-- The state after publish("", 80, "", "") on sUnderStart: the reservation
is align4(2+0+0+0+3) = 8 bytes, but the written record (port, the 10-byte
eventName, the empty data) spans skipEvent = 16 bytes. -/
def sUnder : QState := (publish sUnderStart [] 80 [] []).2

/-- C1: evaluated at a state with two queued 8-byte records and no free tail
space, publish of a record of padded size 8 (which fits the usable region,
and would fit after the one eviction publish performs) discards one record
and returns false without retrying the space check or writing the record:
the claimed evict-retry-until-fits loop, ending in a successful write, is
absent from the code. -/
theorem publish_gives_up_after_one_eviction :
    align4 (EVT_SIZE + ([] : List Nat).length + ([] : List Nat).length
        + ([] : List Nat).length + 3) = 8 ∧
    (publish sTwo [] 5 [] []).1 = false ∧
    (publish sTwo [] 5 [] []).2.numEvents = 1 ∧
    sTwo.retainedBufferSize - HDR_SIZE - (publish sTwo [] 5 [] []).2.nextFree ≥ 8 := by
  decide

/-- C2: publish reserves the padded size computed from its four parameters
(16 bytes for ("host1", 80, "/a", "b")) and advances the cursor by it, but
the record bytes it writes hold the eventName/data members, over which
skipEvent advances only align4(EVT_SIZE + 1 + 1 + 1 + 1) = 8 bytes: the
stored encoded size and the walk distance disagree. -/
theorem stored_size_walk_mismatch :
    (publish sEmpty host1 80 pathA bodyB).1 = true ∧
    (publish sEmpty host1 80 pathA bodyB).2.nextFree = 16 ∧
    recordStoredAt (publish sEmpty host1 80 pathA bodyB).2.buf 0
      { port := 80, name := [101], payload := [100] } = true ∧
    skipEvent (publish sEmpty host1 80 pathA bodyB).2.buf 0 = 8 ∧
    (publish sEmpty host1 80 pathA bodyB).2.nextFree
      ≠ skipEvent (publish sEmpty host1 80 pathA bodyB).2.buf 0 := by
  decide

/-- C3: clearEvents with no send in flight zeroes numEvents and returns
true, but leaves the cursor where it was (area offset 8, not the record-area
start): the cursor reset the claim describes does not happen. -/
theorem clearEvents_cursor_not_reset :
    (clearEvents sOne).1 = true ∧ (clearEvents sOne).2.numEvents = 0 ∧
    sOne.nextFree = 8 ∧ (clearEvents sOne).2.nextFree = 8 ∧
    (clearEvents sOne).2.nextFree ≠ 0 := by
  decide

/-- C4: the FIFO round trip does not return the enqueued fields: publish on
an empty buffer stores the eventName/data members and only the port
parameter, so the oldest record reads back as (80, "e", "d") and not as the
enqueued ("host1", 80, "/a", "b"). -/
theorem roundtrip_loses_fields :
    (publish sEmpty host1 80 pathA bodyB).1 = true ∧
    readRec (publish sEmpty host1 80 pathA bodyB).2.buf 0
      = { port := 80, name := [101], payload := [100] } ∧
    (readRec (publish sEmpty host1 80 pathA bodyB).2.buf 0).name ≠ host1 ∧
    (readRec (publish sEmpty host1 80 pathA bodyB).2.buf 0).payload ≠ pathA ∧
    (readRec (publish sEmpty host1 80 pathA bodyB).2.buf 0).payload ≠ bodyB := by
  decide

/-- C10 counterexample: after construction, publish("", 80, "", "") on a
fresh 24-byte region with a 10-byte eventName member succeeds, reserving 8
bytes (cursor at area offset 8, all writes inside the area), while the
written record's walk length is skipEvent = 16; the following
discardOldEvent(false) succeeds and its cursor update `nextFree -= len`
computes area offset 8 - 16 = -8, an absolute cursor offset of
HDR_SIZE + (-8) = 0, strictly below the header size — outside the claimed
closed interval [header size, region size].  The Nat state field clamps
the same update at 0. -/
theorem cursor_lower_bound_violated :
    (publish sUnderStart [] 80 [] []).1 = true ∧
    sUnder.nextFree = 8 ∧
    skipEvent sUnder.buf 0 = 16 ∧
    (discardOldEvent sUnder false).1 = true ∧
    discardCursor sUnder 0 = -8 ∧
    (HDR_SIZE : Int) + discardCursor sUnder 0 < (HDR_SIZE : Int) ∧
    (discardOldEvent sUnder false).2.nextFree = 0 := by
  decide

/-! Witnesses: each general theorem above, applied at a concrete input. -/

theorem checkQueueState_attempt_witness :
    validState sTwo [rA, rB] ∧
    (checkQueueState sTwo true 2000 200).numEvents = sTwo.numEvents - 1 ∧
    (checkQueueState sTwo true 2000 503).handler = HState.waitRetry := by
  have hv : validState sTwo [rA, rB] := by unfold validState; decide
  refine ⟨hv, ?_, ?_⟩
  · exact ((checkQueueState_attempt sTwo rA [rB] 2000 200 hv (by decide) (by decide)).1
      (by decide)).2.2
  · exact ((checkQueueState_attempt sTwo rA [rB] 2000 503 hv (by decide) (by decide)).2.1
      (by decide)).2.2.2

theorem evict_while_sending_witness :
    validState sTwoSending [rA, rB] ∧
    (discardOldEvent sTwoSending sTwoSending.isSending).1 = true ∧
    validState (discardOldEvent sTwoSending sTwoSending.isSending).2 [rA] := by
  have hv : validState sTwoSending [rA, rB] := by unfold validState; decide
  obtain ⟨h1, h2, _⟩ := evict_while_sending_removes_second sTwoSending rA rB [] hv (by decide)
  exact ⟨hv, h1, h2⟩

theorem publish_oversized_witness :
    align4 (EVT_SIZE + host1.length + host1.length + host1.length + 3)
      > sEmpty.retainedBufferSize - HDR_SIZE ∧
    (publish sEmpty host1 80 host1 host1).1 = false ∧
    (publish sEmpty host1 80 host1 host1).2.buf = sEmpty.buf := by
  refine ⟨by decide, ?_, ?_⟩
  · exact (publish_oversized_rejected sEmpty host1 80 host1 host1 (by decide)).1
  · exact (publish_oversized_rejected sEmpty host1 80 host1 host1 (by decide)).2.1

theorem publish_single_event_witness :
    sOne.numEvents = 1 ∧
    (publish sOne host1 80 [] []).1 = false ∧
    (publish sOne host1 80 [] []).2.buf = sOne.buf ∧
    (publish sOne host1 80 [] []).2.nextFree = sOne.nextFree := by
  have h := publish_single_event_preserved sOne host1 80 [] [] (by decide) (by decide)
  exact ⟨by decide, h.1, h.2.1, h.2.2.2.2.2⟩

theorem construct_spec_witness :
    (construct 0 24 2 bufTwo 24 [] none).numEvents = 0 ∧
    (construct 0 24 2 bufTwo 24 [] none).nextFree = 0 ∧
    (construct MAGIC 24 2 bufTwo 24 [] none).nextFree = 16 := by
  have h1 := (construct_spec 0 24 2 bufTwo 24 [] none).1 (Or.inl (by decide))
  have h2 := (construct_spec MAGIC 24 2 bufTwo 24 [] none).2.1 16 ⟨rfl, rfl⟩ (by decide)
  rw [h1, h2]
  exact ⟨rfl, rfl, rfl⟩

theorem header_and_cursor_witness :
    sTwo.nextFree ≤ sTwo.retainedBufferSize - HDR_SIZE ∧
    (publish sTwo [] 5 [] []).2.magic = sTwo.magic ∧
    (publish sTwo [] 5 [] []).2.nextFree ≤ sTwo.retainedBufferSize - HDR_SIZE ∧
    (clearEvents sTwo).2.nextFree ≤ sTwo.retainedBufferSize - HDR_SIZE := by
  have hp := header_and_cursor_invariant.2.1 sTwo (by decide) [] 5 [] []
  have hc := header_and_cursor_invariant.2.2.1 sTwo (by decide)
  exact ⟨by decide, hp.1, hp.2.2, hc.2.2⟩

end HttpPublishQueueAsync
